import Mathlib

/-!
Verification development for the intent-classification core of
`decibelsystems/decibel-tools-mcp` (files `src/ml/intent_classifier.py`
and `src/ml/server.py`).

Numbers that the Python code handles as floats are modelled as exact
rationals; the external sentence-transformer encoder and the cosine
similarity it induces are parameters (`sim`), since the embedding model
is an external collaborator of this core.
-/

/-- Embedding vectors are finite sequences of (exact) numbers. -/
abbrev Vec := List ℚ

/-- One catalog entry as it lives in `self.example_embeddings`:
an intent label paired with the embeddings of its seed phrases. -/
abbrev CatalogEntry := String × List Vec

/-- `np.max` over a list of similarity scores.  NumPy's `max` is undefined
(raises) on an empty array; this total version returns `0` on `[]`, and
theorems that quantify over arbitrary catalogs carry the hypothesis that
every entry has at least one example, which holds for the shipped catalog. -/
def npMax : List ℚ → ℚ
  | [] => 0
  | [x] => x
  | x :: y :: t => max x (npMax (y :: t))

/-- Dot product of two vectors, `np.dot(a, b)` for equal-length vectors. -/
def dotQ (a b : Vec) : ℚ := (List.zipWith (fun x y => x * y) a b).sum

/-- Sum of absolute values of the components.  For a one-dimensional
vector `[x]` this equals the Euclidean norm `|x|` used by
`np.linalg.norm`, so `cosineSimOneDim` below is exactly the source's
cosine similarity on one-dimensional embeddings. -/
def l1norm (a : Vec) : ℚ := (a.map (fun x => |x|)).sum

/-- `np.dot(a, b) / (np.linalg.norm(a) * np.linalg.norm(b))` restricted to
one-dimensional vectors, where the Euclidean norm is `|x|` and hence
rational.  Used to instantiate the abstract similarity parameter on
concrete inputs. -/
def cosineSimOneDim (a b : Vec) : ℚ := dotQ a b / (l1norm a * l1norm b)

/-- The score the loop body of `IntentClassifier.classify` computes for one
catalog entry: `max_sim = float(np.max(sims))`, the maximum similarity
between the query embedding and the entry's example embeddings. -/
def scoreOf (sim : Vec → Vec → ℚ) (emb : Vec) (e : CatalogEntry) : ℚ :=
  npMax (e.2.map (fun v => sim v emb))

/-- The `for intent, example_embs in self.example_embeddings.items()` loop of
`IntentClassifier.classify`, with the running best `(best_intent, best_score)`
as the accumulator.  The update is `if max_sim > best_score`, i.e. strictly
greater, so the first-seen label wins ties. -/
def classifyAux (sim : Vec → Vec → ℚ) (emb : Vec) :
    List CatalogEntry → String × ℚ → String × ℚ
  | [], best => best
  | (intent, exs) :: rest, best =>
      let maxSim := npMax (exs.map (fun v => sim v emb))
      classifyAux sim emb rest (if maxSim > best.2 then (intent, maxSim) else best)

/-- `IntentClassifier.classify`: starts from `best_intent = "unknown"`,
`best_score = 0.0` and folds over the catalog in iteration order.
The encoded transcript is `emb`; `sim` abstracts the cosine-similarity
computation `np.dot(example_embs, emb) / (norms)` of the source. -/
def classify (sim : Vec → Vec → ℚ) (catalog : List CatalogEntry) (emb : Vec) :
    String × ℚ :=
  classifyAux sim emb catalog ("unknown", 0)

/-- The seed examples hard-coded in `IntentClassifier.__init__`
(`self.examples`), in dict insertion order. -/
def intentExamples : List (String × List String) :=
  [ ("add_wish",
      ["I wish we had", "would be nice if", "can we add", "idea for",
       "we should build", "it would help if", "we need a way to",
       "feature request"]),
    ("log_issue",
      ["there's a bug", "broken", "error when", "fails to", "not working",
       "crashed", "exception in", "something wrong with"]),
    ("log_friction",
      ["annoying that", "keeps happening", "painful to", "frustrating",
       "slows me down", "every time I have to", "tedious", "friction point"]),
    ("log_crit",
      ["I noticed", "observation", "the design feels", "UI looks",
       "feels off", "visually", "the layout", "spacing seems"]),
    ("record_learning",
      ["I learned", "TIL", "figured out", "turns out", "the trick is",
       "gotcha", "lesson learned", "discovered that"]),
    ("search",
      ["find", "where is", "show me", "look up", "search for",
       "what is the status of"]),
    ("ask_oracle",
      ["what should I work on", "project status", "roadmap", "health check",
       "priorities", "next actions"]) ]

/-- `self.example_embeddings`: the shipped catalog with every seed phrase
encoded by the (external) encoder `enc`. -/
def shippedCatalog (enc : String → Vec) : List CatalogEntry :=
  intentExamples.map (fun e => (e.1, e.2.map enc))

/-! ### Rounding (Python `round`, which is round-half-to-even) -/

/-- Python's `round` to an integer: round half to even. -/
def roundHalfEven (q : ℚ) : ℤ :=
  let f := ⌊q⌋
  let r := q - (f : ℚ)
  if r < 1/2 then f
  else if 1/2 < r then f + 1
  else if f % 2 = 0 then f else f + 1

/-- `round(x, 3)` on exact values. -/
def round3 (q : ℚ) : ℚ := (roundHalfEven (q * 1000) : ℚ) / 1000

/-- `round(x, 4)` on exact values. -/
def round4 (q : ℚ) : ℚ := (roundHalfEven (q * 10000) : ℚ) / 10000

/-! ### The feedback log and `get_training_stats` -/

/-- A parsed training-sample object with the standard keys, as
`log_sample` writes them.  (`get_training_stats` reads fields through
`sample.get` with defaults; object lines missing keys are not exercised
by the claims, so records carry all seven fields.) -/
structure SampleRec where
  transcript : String
  user_label : String
  predicted : String
  confidence : ℚ
  correct : Bool
  was_overridden : Bool
  ts : String

/-- One line of the feedback log, classified by what `json.loads` does
with it inside the `try` of `get_training_stats`:
`notJson` — `json.loads` raises, so the bare `except` skips the line
before `total += 1`;
`jsonNonObj` — the line is valid JSON but not an object (e.g. `5`), so
`total += 1` executes and the following `sample.get` raises
`AttributeError`, caught by the bare `except`;
`record` — the line parses to an object with the standard fields. -/
inductive LogLine where
  | notJson : LogLine
  | jsonNonObj : LogLine
  | record : SampleRec → LogLine

/-- The `by_intent` update of `get_training_stats`: find the bucket for
`label` (creating it at the end, matching dict insertion order) and add
one to its `total`, and to its `correct` when `c` is true. -/
def bumpIntent : List (String × ℕ × ℕ) → String → Bool → List (String × ℕ × ℕ)
  | [], label, c => [(label, 1, if c then 1 else 0)]
  | (l, t, k) :: rest, label, c =>
      if l = label then (l, t + 1, if c then k + 1 else k) :: rest
      else (l, t, k) :: bumpIntent rest label c

/-- The running `(total, correct, by_intent)` counters of
`get_training_stats`. -/
abbrev StatsAcc := ℕ × ℕ × List (String × ℕ × ℕ)

/-- The body of the `for line in f` loop of `get_training_stats`,
including where inside the `try` each kind of line stops. -/
def statsStep (acc : StatsAcc) : LogLine → StatsAcc
  | .notJson => acc
  | .jsonNonObj => (acc.1 + 1, acc.2.1, acc.2.2)
  | .record s =>
      (acc.1 + 1,
       if s.correct then acc.2.1 + 1 else acc.2.1,
       bumpIntent acc.2.2 s.user_label s.correct)

/-- The dictionary returned by `get_training_stats`. -/
structure TrainingStats where
  total : ℕ
  accuracy : ℚ
  by_intent : List (String × ℕ × ℕ)

/-- `get_training_stats` on an existing log file: fold the per-line step
over all lines, then `accuracy = round(correct / total, 3) if total > 0
else 0`. -/
def computeStats (lines : List LogLine) : TrainingStats :=
  let acc := lines.foldl statsStep (0, 0, [])
  { total := acc.1
    accuracy := if 0 < acc.1 then round3 ((acc.2.1 : ℚ) / (acc.1 : ℚ)) else 0
    by_intent := acc.2.2 }

/-- `get_training_stats`, including the `not self.training_log.exists()`
early return of zeroed stats (`none` models a log file that does not
exist yet). -/
def getTrainingStats : Option (List LogLine) → TrainingStats
  | none => { total := 0, accuracy := 0, by_intent := [] }
  | some lines => computeStats lines

/-- The internal `correct` counter of `get_training_stats` after the loop
(it is folded into `accuracy` and the `by_intent` buckets, not returned
directly). -/
def trainingCorrect (lines : List LogLine) : ℕ :=
  (lines.foldl statsStep (0, 0, [])).2.1

/-- Independent count of the lines that contribute to `total`: every line
except those `json.loads` rejects outright. -/
def countTotal (lines : List LogLine) : ℕ :=
  lines.countP (fun line =>
    match line with
    | .notJson => false
    | _ => true)

/-- Independent count of the lines that contribute to `correct`: object
lines whose `correct` field is truthy. -/
def countCorrect (lines : List LogLine) : ℕ :=
  lines.countP (fun line =>
    match line with
    | .record s => s.correct
    | _ => false)

/-- `by_intent[label]["total"]`, reading a missing bucket as `0`. -/
def intentTotal (bi : List (String × ℕ × ℕ)) (label : String) : ℕ :=
  ((bi.find? (fun e => decide (e.1 = label))).map (fun e => e.2.1)).getD 0

/-- `by_intent[label]["correct"]`, reading a missing bucket as `0`. -/
def intentCorrect (bi : List (String × ℕ × ℕ)) (label : String) : ℕ :=
  ((bi.find? (fun e => decide (e.1 = label))).map (fun e => e.2.2)).getD 0

/-! ### `log_sample` and its serialized line -/

/-- The timestamp `datetime.utcnow()` observed by `log_sample`. -/
structure UtcTime where
  year : ℕ
  month : ℕ
  day : ℕ
  hour : ℕ
  minute : ℕ
  second : ℕ
  microsecond : ℕ

/-- Hexadecimal digit characters (also used for decimal digits). -/
def hexDigitChar (n : ℕ) : Char :=
  match n % 16 with
  | 0 => '0' | 1 => '1' | 2 => '2' | 3 => '3' | 4 => '4' | 5 => '5'
  | 6 => '6' | 7 => '7' | 8 => '8' | 9 => '9' | 10 => 'a' | 11 => 'b'
  | 12 => 'c' | 13 => 'd' | 14 => 'e' | _ => 'f'

/-- Decimal digits of a natural number, most significant first. -/
def natChars (n : ℕ) : List Char :=
  if _h : n < 10 then [hexDigitChar n]
  else natChars (n / 10) ++ [hexDigitChar (n % 10)]
decreasing_by
  exact Nat.div_lt_self (by omega) (by omega)

/-- Decimal rendering of a natural number. -/
def natString (n : ℕ) : String := String.mk (natChars n)

/-- Zero-padded two-digit field of `datetime.isoformat`. -/
def pad2 (n : ℕ) : String := if n < 10 then "0" ++ natString n else natString n

/-- Zero-padded four-digit year of `datetime.isoformat`. -/
def pad4 (n : ℕ) : String :=
  if n < 10 then "000" ++ natString n
  else if n < 100 then "00" ++ natString n
  else if n < 1000 then "0" ++ natString n
  else natString n

/-- Zero-padded six-digit microsecond field of `datetime.isoformat`. -/
def pad6 (n : ℕ) : String :=
  if n < 10 then "00000" ++ natString n
  else if n < 100 then "0000" ++ natString n
  else if n < 1000 then "000" ++ natString n
  else if n < 10000 then "00" ++ natString n
  else if n < 100000 then "0" ++ natString n
  else natString n

/-- `datetime.isoformat()`: `YYYY-MM-DDTHH:MM:SS` followed by
`.ffffff` unless the microsecond field is zero. -/
def isoformat (t : UtcTime) : String :=
  pad4 t.year ++ "-" ++ pad2 t.month ++ "-" ++ pad2 t.day ++ "T" ++
  pad2 t.hour ++ ":" ++ pad2 t.minute ++ ":" ++ pad2 t.second ++
  (if t.microsecond = 0 then "" else "." ++ pad6 t.microsecond)

/-- The dict `log_sample` builds: `confidence` rounded to 4 places,
`correct` derived as `user_label == predicted`, `ts` the ISO timestamp
with a trailing `"Z"` appended. -/
def logSampleRec (transcript user_label predicted : String) (confidence : ℚ)
    (was_overridden : Bool) (now : UtcTime) : SampleRec :=
  { transcript := transcript
    user_label := user_label
    predicted := predicted
    confidence := round4 confidence
    correct := decide (user_label = predicted)
    was_overridden := was_overridden
    ts := isoformat now ++ "Z" }

/-- Four hex digits, as in a JSON `\uXXXX` escape. -/
def toHex4 (n : ℕ) : String :=
  String.mk [hexDigitChar (n / 4096), hexDigitChar (n / 256),
             hexDigitChar (n / 16), hexDigitChar n]

/-- `json.dumps` escaping of one character (default `ensure_ascii=True`):
quote, backslash and the short control escapes, `\uXXXX` for other
control characters and for everything outside printable ASCII, with
surrogate pairs beyond the basic multilingual plane. -/
def jsonEscapeChar (c : Char) : List Char :=
  if c = '"' then ['\\', '"']
  else if c = '\\' then ['\\', '\\']
  else if c = '\n' then ['\\', 'n']
  else if c = '\r' then ['\\', 'r']
  else if c = '\t' then ['\\', 't']
  else if c = Char.ofNat 8 then ['\\', 'b']
  else if c = Char.ofNat 12 then ['\\', 'f']
  else if c.toNat < 32 ∨ 127 ≤ c.toNat then
    (if c.toNat < 65536 then '\\' :: 'u' :: (toHex4 c.toNat).data
     else ('\\' :: 'u' :: (toHex4 (55296 + (c.toNat - 65536) / 1024)).data) ++
          ('\\' :: 'u' :: (toHex4 (56320 + (c.toNat - 65536) % 1024)).data))
  else [c]

/-- `json.dumps` escaping of a whole string. -/
def jsonEscape (s : String) : String :=
  String.mk ((s.data.map jsonEscapeChar).flatten)

/-- A JSON string literal. -/
def jsonQuote (s : String) : String := "\"" ++ jsonEscape s ++ "\""

/-- JSON booleans. -/
def jsonBool (b : Bool) : String := if b then "true" else "false"

/-- Drop trailing zero characters. -/
def stripTrail (l : List Char) : List Char :=
  (l.reverse.dropWhile (fun c => c == '0')).reverse

/-- The fractional digits of `m / 10000` with trailing zeros stripped but
at least one digit kept (`1.0` style), for `m < 10000`. -/
def fracDigits (m : ℕ) : List Char :=
  match stripTrail [hexDigitChar (m / 1000), hexDigitChar (m / 100 % 10),
                    hexDigitChar (m / 10 % 10), hexDigitChar (m % 10)] with
  | [] => ['0']
  | l => l

/-- Decimal rendering of the stored confidence, which `log_sample` has
already rounded to 4 places (so `q * 10000` is an integer).  Python
serializes the float through its shortest `repr`; the exact digit string
is not load-bearing for any claim — only the stored value and the absence
of control characters in the rendering are. -/
def renderConfidence (q : ℚ) : String :=
  let a := (Rat.floor (q * 10000)).natAbs
  (if q < 0 then "-" else "") ++ natString (a / 10000) ++ "." ++
    String.mk (fracDigits (a % 10000))

/-- One `"key": value` pair with `json.dumps`'s default `': '` separator. -/
def keyField (k v : String) : String := "\"" ++ k ++ "\": " ++ v

/-- The seven key/rendered-value pairs of the dict built by `log_sample`,
in insertion order. -/
def sampleFields (r : SampleRec) : List (String × String) :=
  [("transcript", jsonQuote r.transcript),
   ("user_label", jsonQuote r.user_label),
   ("predicted", jsonQuote r.predicted),
   ("confidence", renderConfidence r.confidence),
   ("correct", jsonBool r.correct),
   ("was_overridden", jsonBool r.was_overridden),
   ("ts", jsonQuote r.ts)]

/-- Join with `json.dumps`'s default `', '` separator. -/
def joinComma : List String → String
  | [] => ""
  | [x] => x
  | x :: y :: t => x ++ ", " ++ joinComma (y :: t)

/-- `json.dumps(sample)` for the dict built by `log_sample`.  (The brace
characters are written with escapes only for lexical reasons.) -/
def dumpsSampleRec (r : SampleRec) : String :=
  "\x7b" ++ joinComma ((sampleFields r).map (fun f => keyField f.1 f.2)) ++
    "\x7d"

/-- `log_sample`: append one serialized line plus `"\n"` to the log file
content. -/
def logSampleWrite (file : String) (transcript user_label predicted : String)
    (confidence : ℚ) (was_overridden : Bool) (now : UtcTime) : String :=
  file ++
    dumpsSampleRec
      (logSampleRec transcript user_label predicted confidence
        was_overridden now) ++ "\n"

/-! ### The HTTP handlers of `server.py` -/

/-- A parsed JSON request body; `none` models a missing key, so
`body.get(key, default)` is `Option.getD`. -/
structure ReqBody where
  transcript : Option String
  user_label : Option String
  predicted : Option String
  confidence : Option ℚ
  was_overridden : Option Bool

/-- The JSON response bodies the handlers send. -/
inductive RespBody where
  | err : String → RespBody
  | classifyResult : String → ℚ → RespBody
  | logged : RespBody
  | statsResult : TrainingStats → RespBody

/-- `ClassifierHandler._handle_classify`: an absent or empty `transcript`
is falsy, so the handler answers 400 without classifying; otherwise it
answers 200 with the intent and the confidence rounded to 4 places.  The
log-file state is threaded unchanged.  (The 500 answer for an encoder
that raises is outside this model: the encoder `enc` is total here.) -/
def handleClassify (sim : Vec → Vec → ℚ) (catalog : List CatalogEntry)
    (enc : String → Vec) (body : ReqBody) (log : Option (List LogLine)) :
    (ℕ × RespBody) × Option (List LogLine) :=
  let transcript := body.transcript.getD ""
  if transcript = "" then ((400, RespBody.err "Missing transcript"), log)
  else
    let r := classify sim catalog (enc transcript)
    ((200, RespBody.classifyResult r.1 (round4 r.2)), log)

/-- `ClassifierHandler._handle_log`: read each field with its default
(`"unknown"`, `"unknown"`, `0`, `False`), call `log_sample`, and answer
200 with `logged: true`.  Appending to a log file that does not exist yet
creates it. -/
def handleLog (body : ReqBody) (now : UtcTime) (log : Option (List LogLine)) :
    (ℕ × RespBody) × Option (List LogLine) :=
  let r := logSampleRec (body.transcript.getD "")
      (body.user_label.getD "unknown") (body.predicted.getD "unknown")
      (body.confidence.getD 0) (body.was_overridden.getD false) now
  ((200, RespBody.logged), some (log.getD [] ++ [LogLine.record r]))

/-! ### The module-level singleton `get_classifier` -/

/-- The state an `IntentClassifier` instance carries that later calls can
observe: the feedback-log path chosen in `__init__` (the model and
catalog are fixed per process). -/
structure IntentClassifierInst where
  training_log : String

/-- The `training_log` path chosen by `IntentClassifier.__init__`:
`data_root/.decibel/ml/training_samples.jsonl` when a data root is given,
else the relative default. -/
def trainingLogPath : Option String → String
  | some root => root ++ "/.decibel/ml/training_samples.jsonl"
  | none => ".decibel/ml/training_samples.jsonl"

/-- `IntentClassifier.__init__` as far as observable state goes. -/
def mkIntentClassifier (dataRoot : Option String) : IntentClassifierInst :=
  { training_log := trainingLogPath dataRoot }

/-- `get_classifier`: the module-global `_classifier` is the second
component; it is created on first use and returned unchanged afterwards,
ignoring the `data_root` argument of later calls. -/
def getClassifier (dataRoot : Option String) :
    Option IntentClassifierInst →
      IntentClassifierInst × Option IntentClassifierInst
  | some c => (c, some c)
  | none =>
      let c := mkIntentClassifier dataRoot
      (c, some c)

/-! ### Lemmas about `npMax` and the classification fold -/

theorem npMax_cons (x : ℚ) (l : List ℚ) (h : l ≠ []) :
    npMax (x :: l) = max x (npMax l) := by
  cases l with
  | nil => exact absurd rfl h
  | cons y t => rfl

theorem le_npMax_of_mem {l : List ℚ} {x : ℚ} (hx : x ∈ l) : x ≤ npMax l := by
  induction l with
  | nil => cases hx
  | cons y t ih =>
    cases t with
    | nil =>
      rcases List.mem_cons.1 hx with h | h
      · simp [npMax, h]
      · cases h
    | cons z t2 =>
      rw [npMax_cons y (z :: t2) (by simp)]
      rcases List.mem_cons.1 hx with h | h
      · exact h ▸ le_max_left _ _
      · exact le_trans (ih h) (le_max_right _ _)

theorem npMax_mem {l : List ℚ} (h : l ≠ []) : npMax l ∈ l := by
  induction l with
  | nil => exact absurd rfl h
  | cons y t ih =>
    cases t with
    | nil => simp [npMax]
    | cons z t2 =>
      rw [npMax_cons y (z :: t2) (by simp)]
      rcases max_choice y (npMax (z :: t2)) with h1 | h1
      · rw [h1]; exact List.mem_cons_self _ _
      · rw [h1]; exact List.mem_cons_of_mem _ (ih (by simp))

theorem init_le_foldl_max {α : Type} (f : α → ℚ) :
    ∀ (l : List α) (b : ℚ), b ≤ l.foldl (fun a e => max a (f e)) b := by
  intro l
  induction l with
  | nil => intro b; exact le_refl b
  | cons y t ih =>
    intro b
    exact le_trans (le_max_left b (f y)) (ih (max b (f y)))

theorem le_foldl_max {α : Type} (f : α → ℚ) :
    ∀ (l : List α) (b : ℚ) (x : α), x ∈ l →
      f x ≤ l.foldl (fun a e => max a (f e)) b := by
  intro l
  induction l with
  | nil => intro b x hx; cases hx
  | cons y t ih =>
    intro b x hx
    rcases List.mem_cons.1 hx with h | h
    · subst h
      exact le_trans (le_max_right b (f x)) (init_le_foldl_max f t (max b (f x)))
    · exact ih (max b (f y)) x h

theorem foldl_max_eq {α : Type} (f : α → ℚ) :
    ∀ (l : List α) (b : ℚ), l ≠ [] →
      l.foldl (fun a e => max a (f e)) b = max b (npMax (l.map f)) := by
  intro l
  induction l with
  | nil => intro b h; exact absurd rfl h
  | cons y t ih =>
    intro b _
    cases t with
    | nil => simp [npMax]
    | cons z t2 =>
      have h2 : (z :: t2 : List α) ≠ [] := by simp
      calc ((y :: z :: t2).foldl (fun a e => max a (f e)) b)
          = (z :: t2).foldl (fun a e => max a (f e)) (max b (f y)) := rfl
        _ = max (max b (f y)) (npMax ((z :: t2).map f)) := ih (max b (f y)) h2
        _ = max b (max (f y) (npMax ((z :: t2).map f))) := max_assoc b (f y) _
        _ = max b (npMax ((y :: z :: t2).map f)) := by simp [npMax]

theorem classifyAux_snd (sim : Vec → Vec → ℚ) (emb : Vec) :
    ∀ (l : List CatalogEntry) (b : String × ℚ),
      (classifyAux sim emb l b).2 =
        l.foldl (fun a e => max a (scoreOf sim emb e)) b.2 := by
  intro l
  induction l with
  | nil => intro b; rfl
  | cons e rest ih =>
    rcases e with ⟨i, exs⟩
    intro b
    simp only [classifyAux, List.foldl_cons]
    rw [ih]
    congr 1
    show (if npMax (exs.map fun v => sim v emb) > b.2
            then (i, npMax (exs.map fun v => sim v emb)) else b).2 =
         max b.2 (scoreOf sim emb (i, exs))
    unfold scoreOf
    rcases lt_or_le b.2 (npMax (exs.map fun v => sim v emb)) with h | h
    · rw [if_pos h, max_eq_right h.le]
    · rw [if_neg (not_lt.2 h), max_eq_left h]

theorem scoreOf_le_classifyAux (sim : Vec → Vec → ℚ) (emb : Vec)
    (l : List CatalogEntry) (b : String × ℚ) {x : CatalogEntry} (hx : x ∈ l) :
    scoreOf sim emb x ≤ (classifyAux sim emb l b).2 := by
  rw [classifyAux_snd]
  exact le_foldl_max (scoreOf sim emb) l b.2 x hx

theorem init_le_classifyAux (sim : Vec → Vec → ℚ) (emb : Vec)
    (l : List CatalogEntry) (b : String × ℚ) :
    b.2 ≤ (classifyAux sim emb l b).2 := by
  rw [classifyAux_snd]
  exact init_le_foldl_max (scoreOf sim emb) l b.2

theorem classifyAux_of_le (sim : Vec → Vec → ℚ) (emb : Vec) :
    ∀ (l : List CatalogEntry) (b : String × ℚ),
      (∀ e ∈ l, scoreOf sim emb e ≤ b.2) → classifyAux sim emb l b = b := by
  intro l
  induction l with
  | nil => intro b _; rfl
  | cons e rest ih =>
    rcases e with ⟨i, exs⟩
    intro b h
    have hhead : npMax (exs.map fun v => sim v emb) ≤ b.2 :=
      h (i, exs) (List.mem_cons_self _ _)
    simp only [classifyAux]
    rw [if_neg (not_lt.2 hhead)]
    exact ih b (fun x hx => h x (List.mem_cons_of_mem _ hx))

theorem classifyAux_eq_or_mem (sim : Vec → Vec → ℚ) (emb : Vec) :
    ∀ (l : List CatalogEntry) (b : String × ℚ),
      classifyAux sim emb l b = b ∨
        (classifyAux sim emb l b).1 ∈ l.map Prod.fst := by
  intro l
  induction l with
  | nil => intro b; exact Or.inl rfl
  | cons e rest ih =>
    rcases e with ⟨i, exs⟩
    intro b
    simp only [classifyAux]
    rcases lt_or_le b.2 (npMax (exs.map fun v => sim v emb)) with h | h
    · rw [if_pos h]
      rcases ih (i, npMax (exs.map fun v => sim v emb)) with h1 | h1
      · exact Or.inr (by rw [h1]; exact List.mem_cons_self _ _)
      · exact Or.inr (List.mem_cons_of_mem _ h1)
    · rw [if_neg (not_lt.2 h)]
      rcases ih b with h1 | h1
      · exact Or.inl h1
      · exact Or.inr (List.mem_cons_of_mem _ h1)

theorem classifyAux_find (sim : Vec → Vec → ℚ) (emb : Vec) :
    ∀ (l : List CatalogEntry) (b : String × ℚ),
      (∃ e ∈ l, b.2 < scoreOf sim emb e) →
      ∃ e, l.find? (fun x =>
              decide (scoreOf sim emb x = (classifyAux sim emb l b).2)) = some e ∧
           classifyAux sim emb l b = (e.1, scoreOf sim emb e) := by
  intro l
  induction l with
  | nil =>
    rintro b ⟨e, he, _⟩
    cases he
  | cons hd rest ih =>
    rcases hd with ⟨i, exs⟩
    intro b he
    have hsc : scoreOf sim emb (i, exs) = npMax (exs.map fun v => sim v emb) := rfl
    by_cases hc : b.2 < npMax (exs.map fun v => sim v emb)
    · have hstep : classifyAux sim emb ((i, exs) :: rest) b
          = classifyAux sim emb rest (i, npMax (exs.map fun v => sim v emb)) := by
        simp only [classifyAux]
        rw [if_pos hc]
      by_cases hall :
          ∀ x ∈ rest, scoreOf sim emb x ≤ npMax (exs.map fun v => sim v emb)
      · have hres : classifyAux sim emb rest (i, npMax (exs.map fun v => sim v emb))
            = (i, npMax (exs.map fun v => sim v emb)) :=
          classifyAux_of_le sim emb rest _ hall
        have htot : classifyAux sim emb ((i, exs) :: rest) b
            = (i, npMax (exs.map fun v => sim v emb)) := hstep.trans hres
        refine ⟨(i, exs), ?_, ?_⟩
        · simp only [htot]
          apply List.find?_cons_of_pos
          simp [scoreOf]
        · simp [htot, scoreOf]
      · push_neg at hall
        obtain ⟨x, hxmem, hx⟩ := hall
        obtain ⟨e, hfind, heq⟩ :=
          ih (i, npMax (exs.map fun v => sim v emb)) ⟨x, hxmem, hx⟩
        have hgt : npMax (exs.map fun v => sim v emb)
            < (classifyAux sim emb rest (i, npMax (exs.map fun v => sim v emb))).2 :=
          lt_of_lt_of_le hx (scoreOf_le_classifyAux sim emb rest _ hxmem)
        refine ⟨e, ?_, ?_⟩
        · simp only [hstep]
          rw [List.find?_cons_of_neg _
                (by simp only [decide_eq_true_eq]; rw [hsc]; exact ne_of_lt hgt)]
          exact hfind
        · simp only [hstep]
          exact heq
    · have hstep : classifyAux sim emb ((i, exs) :: rest) b
          = classifyAux sim emb rest b := by
        simp only [classifyAux]
        rw [if_neg hc]
      obtain ⟨e0, he0mem, he0⟩ := he
      have he0' : e0 ∈ rest := by
        rcases List.mem_cons.1 he0mem with h | h
        · exact absurd (hsc ▸ h ▸ he0) hc
        · exact h
      obtain ⟨e, hfind, heq⟩ := ih b ⟨e0, he0', he0⟩
      have hgt : b.2 < (classifyAux sim emb rest b).2 :=
        lt_of_lt_of_le he0 (scoreOf_le_classifyAux sim emb rest b he0')
      have hs2 : scoreOf sim emb (i, exs) ≤ b.2 := by
        rw [hsc]
        exact not_lt.1 hc
      refine ⟨e, ?_, ?_⟩
      · simp only [hstep]
        rw [List.find?_cons_of_neg _
              (by simp only [decide_eq_true_eq]
                  exact ne_of_lt (lt_of_le_of_lt hs2 hgt))]
        exact hfind
      · simp only [hstep]
        exact heq

theorem classify_eq (sim : Vec → Vec → ℚ) (catalog : List CatalogEntry)
    (emb : Vec) :
    classify sim catalog emb = classifyAux sim emb catalog ("unknown", 0) := rfl

/-- Claim C1 (amended): for every similarity function and catalog whose
entries all have at least one example, `classify` returns a catalog label
with positive confidence whenever some label's maximum-similarity score is
strictly positive, and it returns `("unknown", 0.0)` exactly when every
label's score is at most `0` (in particular when the catalog is empty).
The claim as stated fails: `best_score` starts at `0.0` and only strictly
larger scores replace it, so a non-empty catalog whose similarities are all
non-positive still yields `("unknown", 0.0)`. -/
theorem C1_unknown_iff_no_positive_score (sim : Vec → Vec → ℚ)
    (catalog : List CatalogEntry) (emb : Vec)
    (_hex : ∀ e ∈ catalog, e.2 ≠ []) :
    ((∃ e ∈ catalog, 0 < scoreOf sim emb e) →
        (classify sim catalog emb).1 ∈ catalog.map Prod.fst ∧
        0 < (classify sim catalog emb).2) ∧
    (classify sim catalog emb = ("unknown", 0) ↔
        ∀ e ∈ catalog, scoreOf sim emb e ≤ 0) := by
  constructor
  · rintro ⟨e0, he0mem, he0⟩
    obtain ⟨e, hfind, heq⟩ := classifyAux_find sim emb catalog ("unknown", 0)
      ⟨e0, he0mem, by simpa using he0⟩
    have hle : scoreOf sim emb e0 ≤ (classifyAux sim emb catalog ("unknown", 0)).2 :=
      scoreOf_le_classifyAux sim emb catalog _ he0mem
    constructor
    · rw [classify_eq, heq]
      exact List.mem_map_of_mem Prod.fst (List.mem_of_find?_eq_some hfind)
    · rw [classify_eq]
      exact lt_of_lt_of_le he0 hle
  · constructor
    · intro h e hemem
      by_contra hgt
      push_neg at hgt
      have hle : scoreOf sim emb e ≤ (classifyAux sim emb catalog ("unknown", 0)).2 :=
        scoreOf_le_classifyAux sim emb catalog _ hemem
      rw [classify_eq] at h
      rw [h] at hle
      have h0 : (0 : ℚ) < 0 := by simpa using lt_of_lt_of_le hgt hle
      exact lt_irrefl 0 h0
    · intro h
      rw [classify_eq]
      exact classifyAux_of_le sim emb catalog ("unknown", 0)
        (fun e hemem => by simpa using h e hemem)

/-- Claim C1 counterexample: the catalog `{"a": one example}` is non-empty,
yet on a query whose cosine similarity with that example is `−1`
(query embedding `[1]`, example embedding `[−1]`) `classify` returns the
label `"unknown"` — which is not a catalog label — with confidence `0.0`. -/
theorem C1_counterexample :
    classify cosineSimOneDim [("a", [[-1]])] [1] = ("unknown", 0) ∧
    ([("a", [[-1]])] : List CatalogEntry) ≠ [] ∧
    "unknown" ∉ ([("a", [[-1]])] : List CatalogEntry).map Prod.fst := by
  refine ⟨?_, by simp, by decide⟩
  norm_num [classify, classifyAux, cosineSimOneDim, dotQ, l1norm, npMax]

/-- Witness for C1: the amended theorem applied to the concrete one-entry
catalog `{"a": [[1]]}` and query embedding `[1]`. -/
theorem C1_witness :
    ((∃ e ∈ ([("a", [[1]])] : List CatalogEntry),
        0 < scoreOf cosineSimOneDim [1] e) →
      (classify cosineSimOneDim [("a", [[1]])] [1]).1 ∈
          ([("a", [[1]])] : List CatalogEntry).map Prod.fst ∧
      0 < (classify cosineSimOneDim [("a", [[1]])] [1]).2) ∧
    (classify cosineSimOneDim [("a", [[1]])] [1] = ("unknown", 0) ↔
      ∀ e ∈ ([("a", [[1]])] : List CatalogEntry),
        scoreOf cosineSimOneDim [1] e ≤ 0) :=
  C1_unknown_iff_no_positive_score cosineSimOneDim [("a", [[1]])] [1] (by decide)

/-- Claim C2 (amended): each label's score is the maximum similarity over
its example embeddings, and whenever the globally highest score is strictly
positive, `classify` returns the first catalog label (in iteration order)
attaining that score, with that score as the confidence.  The claim as
stated fails when no score is positive: the result is then `("unknown", 0.0)`
rather than the label with the globally highest score.  The hypothesis that
every entry has an example mirrors `np.max` being undefined on an empty
array. -/
theorem C2_argmax_first_when_positive (sim : Vec → Vec → ℚ)
    (catalog : List CatalogEntry) (emb : Vec)
    (_hex : ∀ e ∈ catalog, e.2 ≠ [])
    (hpos : 0 < npMax (catalog.map (scoreOf sim emb))) :
    (∀ e ∈ catalog, scoreOf sim emb e = npMax (e.2.map (fun v => sim v emb))) ∧
    (classify sim catalog emb).2 = npMax (catalog.map (scoreOf sim emb)) ∧
    ∃ e, catalog.find? (fun x =>
            decide (scoreOf sim emb x =
              npMax (catalog.map (scoreOf sim emb)))) = some e ∧
         classify sim catalog emb =
           (e.1, npMax (catalog.map (scoreOf sim emb))) := by
  have hcat : catalog ≠ [] := by
    intro h
    rw [h] at hpos
    simp [npMax] at hpos
  have hMmem : npMax (catalog.map (scoreOf sim emb)) ∈
      catalog.map (scoreOf sim emb) :=
    npMax_mem (by simpa using hcat)
  obtain ⟨e0, he0mem, he0⟩ := List.mem_map.1 hMmem
  obtain ⟨e, hfind, heq⟩ := classifyAux_find sim emb catalog ("unknown", 0)
    ⟨e0, he0mem, by simpa [he0] using hpos⟩
  have hsnd : (classify sim catalog emb).2 =
      npMax (catalog.map (scoreOf sim emb)) := by
    rw [classify_eq, classifyAux_snd,
        foldl_max_eq (scoreOf sim emb) catalog _ hcat]
    simpa using max_eq_right (le_of_lt hpos)
  have haux2 : (classifyAux sim emb catalog ("unknown", 0)).2 =
      npMax (catalog.map (scoreOf sim emb)) := by
    rw [← classify_eq]
    exact hsnd
  have hscore : scoreOf sim emb e = npMax (catalog.map (scoreOf sim emb)) := by
    have h1 := List.find?_some hfind
    simp only [decide_eq_true_eq] at h1
    rw [h1]
    exact haux2
  refine ⟨fun e _ => rfl, hsnd, ⟨e, ?_, ?_⟩⟩
  · simp only [haux2] at hfind
    exact hfind
  · rw [classify_eq, heq, hscore]

/-- Claim C2 counterexample: with catalog `{"a": [[-1]]}` and query
embedding `[1]`, the label with the globally highest score is `"a"`
(score `−1`), yet `classify` returns `("unknown", 0.0)`, not `("a", −1)`. -/
theorem C2_counterexample :
    npMax (([("a", [[-1]])] : List CatalogEntry).map
        (scoreOf cosineSimOneDim [1])) = -1 ∧
    scoreOf cosineSimOneDim [1] ("a", [[-1]]) = -1 ∧
    classify cosineSimOneDim [("a", [[-1]])] [1] ≠ ("a", -1) ∧
    classify cosineSimOneDim [("a", [[-1]])] [1] = ("unknown", 0) := by
  refine ⟨?_, ?_, ?_, ?_⟩ <;>
    norm_num [classify, classifyAux, scoreOf, cosineSimOneDim, dotQ, l1norm,
      npMax]

/-- Witness for C2: the amended theorem applied to the concrete one-entry
catalog `{"a": [[1]]}` and query embedding `[1]`, whose single score is `1`. -/
theorem C2_witness :
    (∀ e ∈ ([("a", [[1]])] : List CatalogEntry),
        scoreOf cosineSimOneDim [1] e =
          npMax (e.2.map (fun v => cosineSimOneDim v [1]))) ∧
    (classify cosineSimOneDim [("a", [[1]])] [1]).2 =
      npMax (([("a", [[1]])] : List CatalogEntry).map
        (scoreOf cosineSimOneDim [1])) ∧
    ∃ e, ([("a", [[1]])] : List CatalogEntry).find? (fun x =>
            decide (scoreOf cosineSimOneDim [1] x =
              npMax (([("a", [[1]])] : List CatalogEntry).map
                (scoreOf cosineSimOneDim [1])))) = some e ∧
         classify cosineSimOneDim [("a", [[1]])] [1] =
           (e.1, npMax (([("a", [[1]])] : List CatalogEntry).map
             (scoreOf cosineSimOneDim [1]))) :=
  C2_argmax_first_when_positive cosineSimOneDim [("a", [[1]])] [1]
    (by decide)
    (by norm_num [npMax, scoreOf, cosineSimOneDim, dotQ, l1norm])

/-- Claim C9 (amended): the confidence returned by `classify` is always
at least `0.0` (the best score starts at `0.0` and never decreases), and
for every catalog none of whose labels is the literal string `"unknown"` —
which is true of the shipped seven-label catalog — a returned label
`"unknown"` forces confidence exactly `0.0`.  The claim as stated, over
every catalog, fails for a catalog that itself contains a label named
`"unknown"`. -/
theorem C9_confidence_nonneg_unknown_zero (sim : Vec → Vec → ℚ)
    (catalog : List CatalogEntry) (emb : Vec)
    (_hex : ∀ e ∈ catalog, e.2 ≠ []) :
    0 ≤ (classify sim catalog emb).2 ∧
    ("unknown" ∉ catalog.map Prod.fst →
      (classify sim catalog emb).1 = "unknown" →
      (classify sim catalog emb).2 = 0) := by
  constructor
  · have h := init_le_classifyAux sim emb catalog ("unknown", 0)
    rw [classify_eq]
    simpa using h
  · intro hnot hunk
    rcases classifyAux_eq_or_mem sim emb catalog ("unknown", 0) with h | h
    · rw [classify_eq, h]
    · exfalso
      apply hnot
      rw [← hunk]
      rw [classify_eq]
      exact h

/-- Claim C9 counterexample: on a catalog whose only label is literally
named `"unknown"` with a perfectly matching example, `classify` returns
label `"unknown"` with confidence `1`, not `0.0`. -/
theorem C9_counterexample :
    classify cosineSimOneDim [("unknown", [[1]])] [1] = ("unknown", 1) ∧
    (1 : ℚ) ≠ 0 := by
  constructor
  · norm_num [classify, classifyAux, cosineSimOneDim, dotQ, l1norm, npMax]
  · norm_num

/-- Witness for C9: the amended theorem applied to the shipped catalog
(whose labels are the seven intents of `IntentClassifier.__init__`, none of
them `"unknown"`) under a concrete constant encoder. -/
theorem C9_witness :
    0 ≤ (classify cosineSimOneDim
          (shippedCatalog (fun _ => [1])) [1]).2 ∧
    ("unknown" ∉ (shippedCatalog (fun _ => [1])).map Prod.fst →
      (classify cosineSimOneDim (shippedCatalog (fun _ => [1])) [1]).1 =
        "unknown" →
      (classify cosineSimOneDim (shippedCatalog (fun _ => [1])) [1]).2 = 0) :=
  C9_confidence_nonneg_unknown_zero cosineSimOneDim
    (shippedCatalog (fun _ => [1])) [1] (by decide)

/-! ### Lemmas about the statistics fold -/

theorem foldl_statsStep_shift (l : List LogLine) :
    ∀ acc : StatsAcc,
      l.foldl statsStep (acc.1 + 1, acc.2.1, acc.2.2) =
        ((l.foldl statsStep acc).1 + 1, (l.foldl statsStep acc).2.1,
         (l.foldl statsStep acc).2.2) := by
  induction l with
  | nil => intro acc; rfl
  | cons x xs ih =>
    intro acc
    cases x with
    | notJson =>
      simp only [List.foldl_cons, statsStep]
      exact ih acc
    | jsonNonObj =>
      simp only [List.foldl_cons, statsStep]
      exact ih (acc.1 + 1, acc.2.1, acc.2.2)
    | record s =>
      simp only [List.foldl_cons, statsStep]
      exact ih (acc.1 + 1, if s.correct then acc.2.1 + 1 else acc.2.1,
        bumpIntent acc.2.2 s.user_label s.correct)

theorem foldl_statsStep_counts (l : List LogLine) :
    ∀ (t c : ℕ) (bi : List (String × ℕ × ℕ)),
      (l.foldl statsStep (t, c, bi)).1 = t + countTotal l ∧
      (l.foldl statsStep (t, c, bi)).2.1 = c + countCorrect l := by
  induction l with
  | nil =>
    intro t c bi
    simp [countTotal, countCorrect]
  | cons x xs ih =>
    intro t c bi
    cases x with
    | notJson =>
      obtain ⟨h1, h2⟩ := ih t c bi
      simp [List.foldl_cons, statsStep, countTotal, countCorrect,
        List.countP_cons] at h1 h2 ⊢
      omega
    | jsonNonObj =>
      obtain ⟨h1, h2⟩ := ih (t + 1) c bi
      simp [List.foldl_cons, statsStep, countTotal, countCorrect,
        List.countP_cons] at h1 h2 ⊢
      omega
    | record s =>
      obtain ⟨h1, h2⟩ := ih (t + 1) (if s.correct then c + 1 else c)
        (bumpIntent bi s.user_label s.correct)
      have hb : (if s.correct then c + 1 else c) =
          c + (if s.correct then 1 else 0) := by
        cases s.correct <;> simp
      simp [List.foldl_cons, statsStep, countTotal, countCorrect,
        List.countP_cons] at h1 h2 ⊢
      omega

theorem intentTotal_bumpIntent (label : String) (c : Bool) :
    ∀ bi : List (String × ℕ × ℕ),
      intentTotal (bumpIntent bi label c) label = intentTotal bi label + 1 := by
  intro bi
  induction bi with
  | nil => simp [bumpIntent, intentTotal, List.find?]
  | cons e rest ih =>
    rcases e with ⟨l, t, k⟩
    by_cases h : l = label
    · subst h
      unfold intentTotal
      rw [show bumpIntent ((l, t, k) :: rest) l c =
            (l, t + 1, if c then k + 1 else k) :: rest from by
          simp [bumpIntent]]
      rw [List.find?_cons_of_pos _ (by simp), List.find?_cons_of_pos _ (by simp)]
      rfl
    · simp only [bumpIntent, if_neg h]
      unfold intentTotal
      rw [List.find?_cons_of_neg _ (by simp [h]),
          List.find?_cons_of_neg _ (by simp [h])]
      exact ih

theorem foldl_statsStep_middle (a b : List LogLine) (x : LogLine)
    (init : StatsAcc) :
    (a ++ [x] ++ b).foldl statsStep init =
      b.foldl statsStep (statsStep (a.foldl statsStep init) x) := by
  simp [List.foldl_append]

/-- Claim C3 (amended): a malformed line that `json.loads` rejects is
skipped entirely — the statistics over valid lines with such a line
inserted anywhere equal the statistics over the valid lines alone.  But
the claim as stated fails for a malformed line that is valid JSON without
being an object (such as the line `5`): `total += 1` runs before
`sample.get` raises, so that line is counted toward `total` — though it
still contributes to neither the `correct` counter nor any `by_intent`
bucket, and the bare `except` keeps every error from escaping. -/
theorem C3_malformed_line_handling (v₁ v₂ : List SampleRec) :
    computeStats (v₁.map LogLine.record ++ [LogLine.notJson] ++
        v₂.map LogLine.record) =
      computeStats (v₁.map LogLine.record ++ v₂.map LogLine.record) ∧
    (computeStats (v₁.map LogLine.record ++ [LogLine.jsonNonObj] ++
        v₂.map LogLine.record)).total =
      (computeStats (v₁.map LogLine.record ++ v₂.map LogLine.record)).total
        + 1 ∧
    trainingCorrect (v₁.map LogLine.record ++ [LogLine.jsonNonObj] ++
        v₂.map LogLine.record) =
      trainingCorrect (v₁.map LogLine.record ++ v₂.map LogLine.record) ∧
    (computeStats (v₁.map LogLine.record ++ [LogLine.jsonNonObj] ++
        v₂.map LogLine.record)).by_intent =
      (computeStats (v₁.map LogLine.record ++ v₂.map LogLine.record)).by_intent
    := by
  have hskip : ∀ init : StatsAcc,
      (v₁.map LogLine.record ++ [LogLine.notJson] ++
        v₂.map LogLine.record).foldl statsStep init =
      (v₁.map LogLine.record ++ v₂.map LogLine.record).foldl statsStep init := by
    intro init
    rw [foldl_statsStep_middle, List.foldl_append]
    rfl
  have hbump : (v₁.map LogLine.record ++ [LogLine.jsonNonObj] ++
      v₂.map LogLine.record).foldl statsStep (0, 0, []) =
      (((v₁.map LogLine.record ++ v₂.map LogLine.record).foldl statsStep
          (0, 0, [])).1 + 1,
       ((v₁.map LogLine.record ++ v₂.map LogLine.record).foldl statsStep
          (0, 0, [])).2.1,
       ((v₁.map LogLine.record ++ v₂.map LogLine.record).foldl statsStep
          (0, 0, [])).2.2) := by
    rw [foldl_statsStep_middle, List.foldl_append]
    have h := foldl_statsStep_shift (v₂.map LogLine.record)
      ((v₁.map LogLine.record).foldl statsStep (0, 0, []))
    exact h
  refine ⟨?_, ?_, ?_, ?_⟩
  · unfold computeStats
    rw [hskip]
  · show ((v₁.map LogLine.record ++ [LogLine.jsonNonObj] ++
        v₂.map LogLine.record).foldl statsStep (0, 0, [])).1 = _
    rw [hbump]
    rfl
  · unfold trainingCorrect
    rw [hbump]
  · show ((v₁.map LogLine.record ++ [LogLine.jsonNonObj] ++
        v₂.map LogLine.record).foldl statsStep (0, 0, [])).2.2 = _
    rw [hbump]
    rfl

/-- Claim C3 counterexample: a log holding one valid sample line and one
malformed line `5` — valid JSON, but an integer, so `sample.get` raises
after `total += 1` — yields `total = 2`, not statistics over exactly the
one valid line (`total = 1`). -/
theorem C3_counterexample :
    (computeStats [LogLine.record ⟨"t", "a", "a", 0, true, false, "s"⟩,
        LogLine.jsonNonObj]).total = 2 ∧
    (computeStats [LogLine.record ⟨"t", "a", "a", 0, true, false, "s"⟩]).total
      = 1 ∧
    (2 : ℕ) ≠ 1 :=
  ⟨rfl, rfl, by decide⟩

/-- Claim C4 (confirmed): appending a sample through `log_sample` and then
recomputing the statistics increases `total` by exactly 1, increases the
sample's `user_label` bucket total by exactly 1, and increases the overall
`correct` counter by 1 exactly when `user_label == predicted`. -/
theorem C4_log_roundtrip (lines : List LogLine)
    (transcript user_label predicted : String) (confidence : ℚ)
    (was_overridden : Bool) (now : UtcTime) :
    (computeStats (lines ++ [LogLine.record
        (logSampleRec transcript user_label predicted confidence
          was_overridden now)])).total =
      (computeStats lines).total + 1 ∧
    intentTotal (computeStats (lines ++ [LogLine.record
        (logSampleRec transcript user_label predicted confidence
          was_overridden now)])).by_intent user_label =
      intentTotal (computeStats lines).by_intent user_label + 1 ∧
    trainingCorrect (lines ++ [LogLine.record
        (logSampleRec transcript user_label predicted confidence
          was_overridden now)]) =
      trainingCorrect lines +
        (if user_label = predicted then 1 else 0) := by
  have hfold : (lines ++ [LogLine.record
      (logSampleRec transcript user_label predicted confidence
        was_overridden now)]).foldl statsStep (0, 0, []) =
      statsStep (lines.foldl statsStep (0, 0, [])) (LogLine.record
        (logSampleRec transcript user_label predicted confidence
          was_overridden now)) := by
    rw [List.foldl_append]
    rfl
  refine ⟨?_, ?_, ?_⟩
  · show ((lines ++ _).foldl statsStep (0, 0, [])).1 = _
    rw [hfold]
    rfl
  · show intentTotal ((lines ++ _).foldl statsStep (0, 0, [])).2.2 user_label
      = _
    rw [hfold]
    exact intentTotal_bumpIntent user_label _ _
  · unfold trainingCorrect
    rw [hfold]
    show (if decide (user_label = predicted)
        then (lines.foldl statsStep (0, 0, [])).2.1 + 1
        else (lines.foldl statsStep (0, 0, [])).2.1) = _
    by_cases h : user_label = predicted <;> simp [h]

/-- Claim C5 (amended): a log file that does not exist yields total `0`,
accuracy `0` and an empty `by_intent` mapping; on an existing log the
returned `total` is the number of non-skipped lines and the returned
accuracy is `correct / total` **rounded to 3 decimal places** when total
is positive, and `0` when total is `0`.  The claim as stated — accuracy
equal to `correct / total` exactly — fails because of the rounding. -/
theorem C5_stats_accuracy_rounded :
    getTrainingStats none =
      { total := 0, accuracy := 0, by_intent := [] } ∧
    ∀ lines : List LogLine,
      (getTrainingStats (some lines)).total = countTotal lines ∧
      (getTrainingStats (some lines)).accuracy =
        (if 0 < countTotal lines then
          round3 ((countCorrect lines : ℚ) / (countTotal lines : ℚ))
         else 0) := by
  refine ⟨rfl, fun lines => ?_⟩
  obtain ⟨h1, h2⟩ := foldl_statsStep_counts lines 0 0 []
  rw [Nat.zero_add] at h1 h2
  constructor
  · show (lines.foldl statsStep (0, 0, [])).1 = countTotal lines
    exact h1
  · show (if 0 < (lines.foldl statsStep (0, 0, [])).1 then
        round3 (((lines.foldl statsStep (0, 0, [])).2.1 : ℚ) /
          ((lines.foldl statsStep (0, 0, [])).1 : ℚ)) else 0) = _
    rw [h1, h2]

/-- Claim C5 counterexample: a log of three valid samples of which one is
correct has `correct / total = 1/3`, but the returned accuracy is the
3-decimal rounding `0.333 ≠ 1/3`. -/
theorem C5_counterexample :
    (computeStats [LogLine.record ⟨"a", "x", "x", 0, true, false, "s"⟩,
        LogLine.record ⟨"b", "x", "y", 0, false, false, "s"⟩,
        LogLine.record ⟨"c", "x", "y", 0, false, false, "s"⟩]).total = 3 ∧
    trainingCorrect [LogLine.record ⟨"a", "x", "x", 0, true, false, "s"⟩,
        LogLine.record ⟨"b", "x", "y", 0, false, false, "s"⟩,
        LogLine.record ⟨"c", "x", "y", 0, false, false, "s"⟩] = 1 ∧
    (computeStats [LogLine.record ⟨"a", "x", "x", 0, true, false, "s"⟩,
        LogLine.record ⟨"b", "x", "y", 0, false, false, "s"⟩,
        LogLine.record ⟨"c", "x", "y", 0, false, false, "s"⟩]).accuracy =
      333 / 1000 ∧
    (333 / 1000 : ℚ) ≠ (1 : ℚ) / 3 := by
  refine ⟨rfl, rfl, ?_, by norm_num⟩
  show (if 0 < (3 : ℕ) then round3 ((1 : ℚ) / (3 : ℚ)) else 0) = 333 / 1000
  norm_num [round3, roundHalfEven]

/-! ### The serialized log line contains no raw newline -/

theorem hexDigitChar_ne_nl (n : ℕ) : hexDigitChar n ≠ '\n' := by
  unfold hexDigitChar
  split <;> decide

theorem natChars_ne_nl (n : ℕ) : '\n' ∉ natChars n := by
  induction n using Nat.strong_induction_on with
  | _ n ih =>
    rw [natChars]
    split
    · intro h
      rw [List.mem_singleton] at h
      exact hexDigitChar_ne_nl n h.symm
    · intro h
      rcases List.mem_append.1 h with h2 | h2
      · next h10 =>
          exact ih (n / 10) (Nat.div_lt_self (by omega) (by omega)) h2
      · rw [List.mem_singleton] at h2
        exact hexDigitChar_ne_nl (n % 10) h2.symm

theorem natString_ne_nl (n : ℕ) : '\n' ∉ (natString n).data :=
  natChars_ne_nl n

theorem nl_not_mem_append {a b : String} (ha : '\n' ∉ a.data)
    (hb : '\n' ∉ b.data) : '\n' ∉ (a ++ b).data := by
  rw [String.data_append]
  intro h
  rcases List.mem_append.1 h with h | h
  · exact ha h
  · exact hb h

theorem toHex4_ne_nl (n : ℕ) : '\n' ∉ (toHex4 n).data := by
  intro h
  have h2 : '\n' ∈ [hexDigitChar (n / 4096), hexDigitChar (n / 256),
      hexDigitChar (n / 16), hexDigitChar n] := h
  simp only [List.mem_cons, List.not_mem_nil, or_false] at h2
  rcases h2 with h2 | h2 | h2 | h2 <;> exact hexDigitChar_ne_nl _ h2.symm

theorem jsonEscapeChar_ne_nl (c : Char) : '\n' ∉ jsonEscapeChar c := by
  unfold jsonEscapeChar
  split_ifs with h1 h2 h3 h4 h5 h6 h7 h8 h9
  · decide
  · decide
  · decide
  · decide
  · decide
  · decide
  · decide
  · intro h
    rcases List.mem_cons.1 h with h | h
    · exact absurd h (by decide)
    rcases List.mem_cons.1 h with h | h
    · exact absurd h (by decide)
    exact toHex4_ne_nl _ h
  · intro h
    rcases List.mem_append.1 h with h | h <;>
      (rcases List.mem_cons.1 h with h | h
       · exact absurd h (by decide)
       rcases List.mem_cons.1 h with h | h
       · exact absurd h (by decide)
       exact toHex4_ne_nl _ h)
  · intro h
    rw [List.mem_singleton] at h
    exact h3 h.symm

theorem jsonEscape_ne_nl (s : String) : '\n' ∉ (jsonEscape s).data := by
  intro h
  have h2 : '\n' ∈ (s.data.map jsonEscapeChar).flatten := h
  rw [List.mem_flatten] at h2
  obtain ⟨l2, hl2, hmem⟩ := h2
  obtain ⟨c, _, rfl⟩ := List.mem_map.1 hl2
  exact jsonEscapeChar_ne_nl c hmem

theorem jsonQuote_ne_nl (s : String) : '\n' ∉ (jsonQuote s).data :=
  nl_not_mem_append (nl_not_mem_append (by decide) (jsonEscape_ne_nl s))
    (by decide)

theorem jsonBool_ne_nl (b : Bool) : '\n' ∉ (jsonBool b).data := by
  cases b <;> decide

theorem stripTrail_subset {x : Char} {l : List Char} (h : x ∈ stripTrail l) :
    x ∈ l := by
  unfold stripTrail at h
  rw [List.mem_reverse] at h
  have hsub := (List.dropWhile_sublist (fun c => c == '0')
      (l := l.reverse)).subset
  exact List.mem_reverse.1 (hsub h)

theorem fracDigits_ne_nl (m : ℕ) : '\n' ∉ fracDigits m := by
  have hsub : ∀ x ∈ stripTrail [hexDigitChar (m / 1000),
      hexDigitChar (m / 100 % 10), hexDigitChar (m / 10 % 10),
      hexDigitChar (m % 10)], x ≠ '\n' := by
    intro x hx
    have h2 := stripTrail_subset hx
    simp only [List.mem_cons, List.not_mem_nil, or_false] at h2
    rcases h2 with h2 | h2 | h2 | h2 <;> (subst h2; exact hexDigitChar_ne_nl _)
  unfold fracDigits
  cases hst : stripTrail [hexDigitChar (m / 1000),
      hexDigitChar (m / 100 % 10), hexDigitChar (m / 10 % 10),
      hexDigitChar (m % 10)] with
  | nil => decide
  | cons c cs =>
    intro h
    exact hsub '\n' (by rw [hst]; exact h) rfl

theorem renderConfidence_ne_nl (q : ℚ) : '\n' ∉ (renderConfidence q).data := by
  unfold renderConfidence
  refine nl_not_mem_append (nl_not_mem_append (nl_not_mem_append ?_ ?_) ?_) ?_
  · split_ifs <;> decide
  · exact natString_ne_nl _
  · decide
  · exact fracDigits_ne_nl _

theorem keyField_ne_nl {k v : String} (hk : '\n' ∉ k.data)
    (hv : '\n' ∉ v.data) : '\n' ∉ (keyField k v).data :=
  nl_not_mem_append
    (nl_not_mem_append (nl_not_mem_append (by decide) hk) (by decide)) hv

theorem joinComma_ne_nl :
    ∀ l : List String, (∀ x ∈ l, '\n' ∉ x.data) →
      '\n' ∉ (joinComma l).data := by
  intro l
  induction l with
  | nil =>
    intro _
    decide
  | cons x t ih =>
    intro h
    cases t with
    | nil => exact h x (List.mem_singleton.2 rfl)
    | cons y t2 =>
      show '\n' ∉ (x ++ ", " ++ joinComma (y :: t2)).data
      refine nl_not_mem_append (nl_not_mem_append ?_ (by decide)) ?_
      · exact h x (List.mem_cons_self _ _)
      · exact ih (fun z hz => h z (List.mem_cons_of_mem _ hz))

theorem dumpsSampleRec_ne_nl (r : SampleRec) :
    '\n' ∉ (dumpsSampleRec r).data := by
  unfold dumpsSampleRec
  refine nl_not_mem_append (nl_not_mem_append (by decide) ?_) (by decide)
  apply joinComma_ne_nl
  intro x hx
  simp only [sampleFields, List.map_cons, List.map_nil, List.mem_cons,
    List.not_mem_nil, or_false] at hx
  rcases hx with h | h | h | h | h | h | h <;> subst h
  · exact keyField_ne_nl (by decide) (jsonQuote_ne_nl _)
  · exact keyField_ne_nl (by decide) (jsonQuote_ne_nl _)
  · exact keyField_ne_nl (by decide) (jsonQuote_ne_nl _)
  · exact keyField_ne_nl (by decide) (renderConfidence_ne_nl _)
  · exact keyField_ne_nl (by decide) (jsonBool_ne_nl _)
  · exact keyField_ne_nl (by decide) (jsonBool_ne_nl _)
  · exact keyField_ne_nl (by decide) (jsonQuote_ne_nl _)

/-- Claim C8 (confirmed): `log_sample` appends exactly one
newline-terminated serialized object line: the new file content is the old
content plus one chunk; the chunk is the serialized object followed by a
single `"\n"` and the serialization itself contains no raw newline (every
control character is escaped), so the chunk holds exactly one newline, at
its end; the object's keys are exactly `transcript, user_label, predicted,
confidence, correct, was_overridden, ts` in that order; the stored
confidence is the input rounded to 4 decimal places; `correct` holds
exactly when `user_label` equals `predicted`; and `ts` is the ISO
timestamp with a trailing `"Z"` as its last character. -/
theorem C8_log_sample_line (file transcript user_label predicted : String)
    (confidence : ℚ) (was_overridden : Bool) (now : UtcTime) :
    logSampleWrite file transcript user_label predicted confidence
        was_overridden now =
      file ++ (dumpsSampleRec (logSampleRec transcript user_label predicted
        confidence was_overridden now) ++ "\n") ∧
    (sampleFields (logSampleRec transcript user_label predicted confidence
        was_overridden now)).map Prod.fst =
      ["transcript", "user_label", "predicted", "confidence", "correct",
       "was_overridden", "ts"] ∧
    '\n' ∉ (dumpsSampleRec (logSampleRec transcript user_label predicted
        confidence was_overridden now)).data ∧
    (dumpsSampleRec (logSampleRec transcript user_label predicted confidence
        was_overridden now) ++ "\n").data.count '\n' = 1 ∧
    (logSampleRec transcript user_label predicted confidence was_overridden
        now).confidence = round4 confidence ∧
    ((logSampleRec transcript user_label predicted confidence was_overridden
        now).correct = true ↔ user_label = predicted) ∧
    (logSampleRec transcript user_label predicted confidence was_overridden
        now).ts = isoformat now ++ "Z" ∧
    ((logSampleRec transcript user_label predicted confidence was_overridden
        now).ts).data.getLast? = some 'Z' := by
  refine ⟨?_, rfl, dumpsSampleRec_ne_nl _, ?_, rfl, ?_, rfl, ?_⟩
  · unfold logSampleWrite
    rw [String.append_assoc]
  · rw [String.data_append, List.count_append,
        List.count_eq_zero.2 (dumpsSampleRec_ne_nl _)]
    decide
  · simp [logSampleRec]
  · show (isoformat now ++ "Z").data.getLast? = some 'Z'
    rw [String.data_append,
        (by decide : ("Z" : String).data = ['Z'])]
    exact List.getLast?_concat _

/-- Claim C6 (confirmed): a `/classify` request whose body lacks the
`transcript` key, or supplies the empty string, gets a 400 error and the
log-file state is unchanged; a request with a non-empty transcript gets a
200 response carrying the intent and (rounded) confidence, again with the
state unchanged.  (The encoder here is total; the source's 500 answer for
an encoder that raises is outside the model.) -/
theorem C6_classify_endpoint (sim : Vec → Vec → ℚ)
    (catalog : List CatalogEntry) (enc : String → Vec)
    (st₁ st₂ : Option (List LogLine)) (b₁ b₂ : ReqBody) (t : String)
    (h1 : b₁.transcript = none ∨ b₁.transcript = some "")
    (h2 : b₂.transcript = some t) (h3 : t ≠ "") :
    handleClassify sim catalog enc b₁ st₁ =
      ((400, RespBody.err "Missing transcript"), st₁) ∧
    handleClassify sim catalog enc b₂ st₂ =
      ((200, RespBody.classifyResult (classify sim catalog (enc t)).1
        (round4 (classify sim catalog (enc t)).2)), st₂) := by
  constructor
  · rcases h1 with h | h <;> simp [handleClassify, h]
  · simp [handleClassify, h2, h3]

/-- Witness for C6: the classify endpoint evaluated on a body with no
`transcript` key and on a body carrying `"hi"`, over a concrete one-entry
catalog. -/
theorem C6_witness :
    handleClassify cosineSimOneDim [("a", [[1]])] (fun _ => [1])
      ⟨none, none, none, none, none⟩ none =
      ((400, RespBody.err "Missing transcript"), none) ∧
    handleClassify cosineSimOneDim [("a", [[1]])] (fun _ => [1])
      ⟨some "hi", none, none, none, none⟩ none =
      ((200, RespBody.classifyResult
        (classify cosineSimOneDim [("a", [[1]])] ((fun _ => [1]) "hi")).1
        (round4 (classify cosineSimOneDim [("a", [[1]])]
          ((fun _ => [1]) "hi")).2)), none) :=
  C6_classify_endpoint cosineSimOneDim [("a", [[1]])] (fun _ => [1])
    none none ⟨none, none, none, none, none⟩ ⟨some "hi", none, none, none, none⟩
    "hi" (Or.inl rfl) rfl (by decide)

/-- Claim C7 (confirmed): a `/log` request supplying only `transcript`
answers 200 with `logged: true` and appends a sample whose `user_label`
and `predicted` default to `"unknown"`, whose stored confidence is
`round(0, 4) = 0`, and whose `was_overridden` is `false`. -/
theorem C7_log_defaults (t : String) (st : Option (List LogLine))
    (now : UtcTime) :
    handleLog ⟨some t, none, none, none, none⟩ now st =
      ((200, RespBody.logged),
       some (st.getD [] ++ [LogLine.record
         (logSampleRec t "unknown" "unknown" 0 false now)])) ∧
    (logSampleRec t "unknown" "unknown" 0 false now).user_label =
      "unknown" ∧
    (logSampleRec t "unknown" "unknown" 0 false now).predicted =
      "unknown" ∧
    (logSampleRec t "unknown" "unknown" 0 false now).confidence = 0 ∧
    (logSampleRec t "unknown" "unknown" 0 false now).was_overridden =
      false := by
  refine ⟨rfl, rfl, rfl, ?_, rfl⟩
  show round4 0 = 0
  norm_num [round4, roundHalfEven]

/-- Claim C10 (confirmed): after the first `get_classifier` call creates
the singleton, every later call — through any sequence of further calls,
each with an arbitrary `data_root` argument — returns the very same
instance and leaves the module state unchanged, and the instance's
feedback-log path is the one fixed by the `data_root` of the first call. -/
theorem C10_singleton (r₁ : Option String) (rs : List (Option String))
    (r' : Option String) :
    getClassifier r' (rs.foldl (fun st r => (getClassifier r st).2)
        (getClassifier r₁ none).2) =
      ((getClassifier r₁ none).1, (getClassifier r₁ none).2) ∧
    ((getClassifier r₁ none).1).training_log = trainingLogPath r₁ := by
  have hstate : ∀ l : List (Option String),
      l.foldl (fun st r => (getClassifier r st).2)
        (some (mkIntentClassifier r₁)) = some (mkIntentClassifier r₁) := by
    intro l
    induction l with
    | nil => rfl
    | cons x xs ih => exact ih
  constructor
  · show getClassifier r'
        (rs.foldl (fun st r => (getClassifier r st).2)
          (some (mkIntentClassifier r₁))) = _
    rw [hstate]
    rfl
  · rfl
